import Mathlib

/-!
Shallow embedding of the sheet-profiling and insight-generation core of the
`tco2eq_v3` dashboard (`src/app.py`), together with the spec's description of the
core where the repository variant in `src/` does not contain it.

The embedding models a pandas `DataFrame` as a `Table`: a row count together with
an ordered list of named, dtype-tagged columns of cells.  Cells are numbers,
text, or null (`NaN`/`None`).  Real-number arithmetic of the source is modelled
over `ℚ`; the one non-total float operation the source performs, division, is
modelled by `npDiv`, which returns `none` for a zero denominator — numpy/pandas
true division does not raise there but produces a non-finite float (`nan` for
`0/0`, `±inf` otherwise; `src/app.py` line 12 suppresses the warning).
-/

/-- A pandas column dtype as far as `select_dtypes` distinguishes them in
`src/app.py`: a numpy number dtype, `object` (text, including numeric-looking
text that did not parse as a number), or anything else. -/
inductive Dtype
  | numeric
  | object
  | other
deriving DecidableEq

/-- One cell of a sheet: a number, a piece of text, or null. -/
inductive Cell
  | num (q : ℚ)
  | text (s : String)
  | null
deriving DecidableEq

/-- One named, dtype-tagged column. -/
structure Column where
  name : String
  dtype : Dtype
  cells : List Cell
deriving DecidableEq

/-- A `DataFrame`: `nrows` is `df.shape[0]` (the index length, meaningful even
with zero columns), `cols` the ordered columns. -/
structure Table where
  nrows : ℕ
  cols : List Column
deriving DecidableEq

/-- Rectangularity: every column has exactly `nrows` cells. -/
def Table.WF (t : Table) : Prop := ∀ c ∈ t.cols, c.cells.length = t.nrows

instance (t : Table) : Decidable t.WF :=
  List.decidableBAll _ _

/-- `df[c].isnull().sum()`: the number of null cells of a column. -/
def Column.nullCount (c : Column) : ℕ :=
  c.cells.countP (fun x => decide (x = Cell.null))

/-- `df[c].count()`: the number of non-null cells of a column. -/
def Column.nonNullCount (c : Column) : ℕ :=
  c.cells.countP (fun x => decide (¬ x = Cell.null))

/-- `df.shape[1]`. -/
def Table.ncols (t : Table) : ℕ := t.cols.length

/-- `df.isnull().sum().sum()`. -/
def Table.totalNulls (t : Table) : ℕ :=
  (t.cols.map Column.nullCount).sum

/-- The number of non-null cells of the whole table. -/
def Table.totalNonNull (t : Table) : ℕ :=
  (t.cols.map Column.nonNullCount).sum

/-- `df.shape[0] * df.shape[1]`. -/
def Table.cellCount (t : Table) : ℕ := t.nrows * t.ncols

/-- numpy/pandas float division: total, never raising.  A zero denominator
yields a non-finite float (`nan` when the numerator is also zero, `±inf`
otherwise), modelled uniformly as `none`; a nonzero denominator yields the
exact quotient. -/
def npDiv (a b : ℚ) : Option ℚ :=
  if b = 0 then none else some (a / b)

/-- The record built by `analyze_sheet_structure` (`src/app.py` lines 70-81). -/
structure SheetAnalysis where
  sheet_name : String
  rows : ℕ
  columns : ℕ
  numeric_cols : ℕ
  text_cols : ℕ
  null_percentage : Option ℚ
  sample_columns : List String
deriving DecidableEq

/-- `analyze_sheet_structure(df, sheet_name)` of `src/app.py` lines 70-81:
shape, counts of numeric/object dtype columns via `select_dtypes`, the overall
null percentage `df.isnull().sum().sum() / (df.shape[0] * df.shape[1]) * 100`,
and `df.columns.tolist()[:5]`. -/
def analyze_sheet_structure (df : Table) (sheet_name : String) : SheetAnalysis where
  sheet_name := sheet_name
  rows := df.nrows
  columns := df.ncols
  numeric_cols := (df.cols.filter (fun c => decide (c.dtype = Dtype.numeric))).length
  text_cols := (df.cols.filter (fun c => decide (c.dtype = Dtype.object))).length
  null_percentage := (npDiv (df.totalNulls : ℚ) (df.cellCount : ℚ)).map (fun x => x * 100)
  sample_columns := (df.cols.map Column.name).take 5

/-- `fill_rate = 100 - (df.isnull().sum().sum() / (df.shape[0] * df.shape[1]) * 100)`
of `src/app.py` line 495 (subtraction from a non-finite float stays non-finite,
so the `none` case propagates). -/
def main_fill_rate (df : Table) : Option ℚ :=
  ((npDiv (df.totalNulls : ℚ) (df.cellCount : ℚ)).map (fun x => x * 100)).map
    (fun x => 100 - x)

/-- Per-column `'% Ausentes': df.isnull().sum() / len(df) * 100` of `src/app.py`
lines 542-546, before the 2-decimal display rounding (which maps a non-finite
value to itself and cannot change `none` into a number). -/
def missing_pct (df : Table) (c : Column) : Option ℚ :=
  (npDiv (c.nullCount : ℚ) (df.nrows : ℚ)).map (fun x => x * 100)

/-- Modelled from the spec (§3): the per-column classification
`numeric | categorical | other` of a ColumnProfile; the `profile` /
`generate_insights` core of §4 is not present in the `src/app.py` variant of the
script (only the profiler fragments embedded above are), so it is modelled here
from the spec's words. -/
inductive ColKind
  | numeric
  | categorical
  | other
deriving DecidableEq

/-- Modelled from the spec (§4.1): a column is classified numeric exactly when
its declared/inferred dtype is a number type; `object` dtype (text, including
unparseable numeric-looking text) is categorical; anything else is `other`. -/
def classify (d : Dtype) : ColKind :=
  match d with
  | Dtype.numeric => ColKind.numeric
  | Dtype.object => ColKind.categorical
  | Dtype.other => ColKind.other

/-- The non-null numeric values of a column, in order. -/
def Column.numVals (c : Column) : List ℚ :=
  c.cells.filterMap (fun x =>
    match x with
    | Cell.num q => some q
    | _ => none)

/-- Modelled from the spec (§4.1 and Scenario A of §8): variance over the
non-null numeric values, absent exactly when there are none.  Scenario A
(`variance 100` for `[10,20,30]`, `1` for `[1,2,3]`) fixes the sample
(`n-1`) normalisation; a single value gets variance `0` so that the variance
is defined whenever at least one value exists, as §4.1 requires. -/
def sampleVariance (xs : List ℚ) : Option ℚ :=
  match xs with
  | [] => none
  | [_] => some 0
  | _ :: _ :: _ =>
    let n : ℚ := xs.length
    let m : ℚ := xs.sum / n
    some ((xs.map (fun x => (x - m) ^ 2)).sum / (n - 1))

/-- Modelled from the spec (§3): the derived per-column profile. -/
structure ColumnProfile where
  name : String
  kind : ColKind
  nonNull : ℕ
  nullRate : ℚ
  variance : Option ℚ
  maxVal : Option ℚ
deriving DecidableEq

/-- Modelled from the spec (§4.1): per-column profiling.  Null-rate is
`nulls / row_count`, defined as `0` when `row_count = 0`; variance and maximum
are computed only for numeric columns, over their non-null values, and are
absent when there are no such values. -/
def profileColumn (rows : ℕ) (c : Column) : ColumnProfile where
  name := c.name
  kind := classify c.dtype
  nonNull := c.nonNullCount
  nullRate := if rows = 0 then 0 else (c.nullCount : ℚ) / (rows : ℚ)
  variance := if classify c.dtype = ColKind.numeric then sampleVariance c.numVals else none
  maxVal := if classify c.dtype = ColKind.numeric then c.numVals.max? else none

/-- Modelled from the spec (§3): the derived table profile. -/
structure TableProfile where
  rowCount : ℕ
  colCount : ℕ
  numericCount : ℕ
  fillRate : ℚ
  columns : List ColumnProfile
deriving DecidableEq

/-- Modelled from the spec (§4.1): `profile(table)`.  The fill-rate is
`(non-null cells) / (rows * cols)` as a percentage, clamped to `100` when
`rows * cols = 0`. -/
def profile (t : Table) : TableProfile where
  rowCount := t.nrows
  colCount := t.ncols
  numericCount := (t.cols.filter (fun c => decide (classify c.dtype = ColKind.numeric))).length
  fillRate :=
    if t.cellCount = 0 then 100
    else (t.totalNonNull : ℚ) / (t.cellCount : ℚ) * 100
  columns := t.cols.map (profileColumn t.nrows)

/-- Modelled from the spec (§3): the heuristic kind tagging an insight. -/
inductive InsightKind
  | variability
  | extremum
  | dataQualityWarning
  | noDataFallback
deriving DecidableEq

/-- Modelled from the spec (§3): an insight, abstracted to its tag, the column
it names (if any) and the numeric value it reports (if any); the rendered
sentence carries no further structure the spec constrains beyond number
formatting. -/
structure Insight where
  kind : InsightKind
  column : Option String
  value : Option ℚ
deriving DecidableEq

/-- Modelled from the spec (§4.2 rule 1): one selection step — a column with a
defined variance beats the best candidate seen so far among the later columns
only when its variance is strictly smaller than that candidate's, so on ties the
earlier (first-occurrence) column wins. -/
def pickStep (p : ColumnProfile) (acc : Option (ColumnProfile × ℚ)) :
    Option (ColumnProfile × ℚ) :=
  match p.variance with
  | some v =>
    match acc with
    | some (q, w) => if v < w then some (q, w) else some (p, v)
    | none => some (p, v)
  | none => acc

/-- Modelled from the spec (§4.2 rule 1): among the column profiles with a
defined variance, pick the one of maximum variance; ties are broken by the
column's original position, first occurrence winning. -/
def pickMaxVar (ps : List ColumnProfile) : Option (ColumnProfile × ℚ) :=
  ps.foldr pickStep none

/-- Modelled from the spec (§4.2 rule 1): when a maximum-variance column
exists, emit one `variability` insight naming it and one `extremum` insight
reporting its maximum value; otherwise emit nothing. -/
def rule1 (ps : List ColumnProfile) : List Insight :=
  match pickMaxVar ps with
  | none => []
  | some (p, _) =>
    [⟨InsightKind.variability, some p.name, p.variance⟩,
     ⟨InsightKind.extremum, some p.name, p.maxVal⟩]

/-- Modelled from the spec (§4.2 rule 2, canonical 30% threshold of §9): emit
one `data-quality-warning` insight exactly when some column's null-rate
strictly exceeds `3/10`. -/
def rule2 (ps : List ColumnProfile) : List Insight :=
  if ps.any (fun p => decide ((3 : ℚ) / 10 < p.nullRate)) then
    [⟨InsightKind.dataQualityWarning, none, none⟩]
  else []

/-- Modelled from the spec (§4.2 rule 3): the single fallback insight. -/
def fallbackInsight : Insight :=
  ⟨InsightKind.noDataFallback, none, none⟩

/-- Modelled from the spec (§4.2): `generate_insights(table, profile)` applies
rules 1-2 in order and falls back to exactly one `no-data-fallback` insight when
they produced nothing.  The heuristics read only the profile; the table argument
is part of the contract's signature. -/
def generate_insights (_t : Table) (pr : TableProfile) : List Insight :=
  if (rule1 pr.columns ++ rule2 pr.columns).isEmpty then [fallbackInsight]
  else rule1 pr.columns ++ rule2 pr.columns

/-- Modelled from the spec (§7): the only core-raised error. -/
inductive CoreError
  | invalidInputError
deriving DecidableEq

/-- Modelled from the spec (§7): what a caller may pass to the core — a Table,
or some value that is not a Table. -/
inductive CoreInput
  | table (t : Table)
  | nonTable
deriving DecidableEq

/-- Modelled from the spec (§7): the checked entry point of the profiler —
`InvalidInputError` exactly for a non-Table argument, otherwise the total
profiling function. -/
def runProfile : CoreInput → Except CoreError TableProfile
  | CoreInput.table t => Except.ok (profile t)
  | CoreInput.nonTable => Except.error CoreError.invalidInputError

/-- Modelled from the spec (§7): the checked entry point of the insight
generator. -/
def runInsights : CoreInput → Except CoreError (List Insight)
  | CoreInput.table t => Except.ok (generate_insights t (profile t))
  | CoreInput.nonTable => Except.error CoreError.invalidInputError

/-- A call to `profile` with the table threaded through explicitly: every
operation the source performs on the frame (`isnull`, `sum`, `count`,
`select_dtypes`, shape and column access) allocates a fresh result and leaves
the frame untouched, so the table coming out of the call is the table that went
in. -/
def profile_call (t : Table) : TableProfile × Table :=
  (profile t, t)

/-- A call to `generate_insights` with the table threaded through explicitly;
the generator only reads the profile and the table. -/
def generate_insights_call (t : Table) (pr : TableProfile) : List Insight × Table :=
  (generate_insights t pr, t)

/-- A call to `analyze_sheet_structure` with the frame threaded through
explicitly. -/
def analyze_sheet_structure_call (df : Table) (s : String) : SheetAnalysis × Table :=
  (analyze_sheet_structure df s, df)

/-- Scenario A column `A = [1, 2, 3]`. -/
def colA : Column := ⟨"A", Dtype.numeric, [Cell.num 1, Cell.num 2, Cell.num 3]⟩

/-- Scenario A column `B = [10, 20, 30]`. -/
def colB : Column := ⟨"B", Dtype.numeric, [Cell.num 10, Cell.num 20, Cell.num 30]⟩

/-- Scenario A table: two fully-filled numeric columns, 3 rows. -/
def sampleTable : Table := ⟨3, [colA, colB]⟩

/-- Scenario C table: 0 rows, 3 columns. -/
def zeroRowTable : Table :=
  ⟨0, [⟨"A", Dtype.other, []⟩, ⟨"B", Dtype.other, []⟩, ⟨"C", Dtype.other, []⟩]⟩

/-- A 10-row numeric column with the values `1..10` and no nulls. -/
def colV : Column :=
  ⟨"V", Dtype.numeric,
    [Cell.num 1, Cell.num 2, Cell.num 3, Cell.num 4, Cell.num 5,
     Cell.num 6, Cell.num 7, Cell.num 8, Cell.num 9, Cell.num 10]⟩

/-- Scenario B column `X`: 10 rows, 6 of them null. -/
def colX : Column :=
  ⟨"X", Dtype.numeric,
    [Cell.num 1, Cell.num 1, Cell.num 1, Cell.num 1,
     Cell.null, Cell.null, Cell.null, Cell.null, Cell.null, Cell.null]⟩

/-- A table on which rule 1 fires and the data-quality warning fires too. -/
def mixedTable : Table := ⟨10, [colV, colX]⟩

/-- A table whose only column is all-text (Scenario D). -/
def textOnlyTable : Table :=
  ⟨2, [⟨"T", Dtype.object, [Cell.text "abc", Cell.text "12x"]⟩]⟩

theorem countP_null_add (l : List Cell) :
    l.countP (fun x => decide (x = Cell.null)) +
      l.countP (fun x => decide (¬ x = Cell.null)) = l.length := by
  induction l with
  | nil => rfl
  | cons a l ih =>
    simp only [List.countP_cons, List.length_cons, decide_not] at ih ⊢
    by_cases h : a = Cell.null
    · simp [h]
      omega
    · simp [h]
      omega

theorem sum_null_nonNull (n : ℕ) (cs : List Column)
    (h : ∀ c ∈ cs, c.cells.length = n) :
    (cs.map Column.nullCount).sum + (cs.map Column.nonNullCount).sum
      = n * cs.length := by
  induction cs with
  | nil => simp
  | cons c cs ih =>
    simp only [List.map_cons, List.sum_cons, List.length_cons, Nat.mul_succ]
    have hc : c.cells.length = n := h c (List.mem_cons_self _ _)
    have key : c.nullCount + c.nonNullCount = n := by
      unfold Column.nullCount Column.nonNullCount
      rw [← hc]
      exact countP_null_add c.cells
    have ih2 := ih (fun d hd => h d (List.mem_cons_of_mem _ hd))
    linarith

theorem totalNulls_add_totalNonNull (t : Table) (h : t.WF) :
    t.totalNulls + t.totalNonNull = t.cellCount := by
  unfold Table.totalNulls Table.totalNonNull Table.cellCount Table.ncols
  exact sum_null_nonNull t.nrows t.cols h

theorem pickMaxVar_cons (p : ColumnProfile) (rest : List ColumnProfile) :
    pickMaxVar (p :: rest) = pickStep p (pickMaxVar rest) := rfl

theorem pickMaxVar_cons_none (p : ColumnProfile) (rest : List ColumnProfile)
    (hp : p.variance = none) :
    pickMaxVar (p :: rest) = pickMaxVar rest := by
  rw [pickMaxVar_cons]
  unfold pickStep
  rw [hp]

theorem pickMaxVar_cons_some (p : ColumnProfile) (rest : List ColumnProfile)
    (v : ℚ) (hp : p.variance = some v) :
    pickMaxVar (p :: rest) =
      (match pickMaxVar rest with
       | some (q, w) => if v < w then some (q, w) else some (p, v)
       | none => some (p, v)) := by
  rw [pickMaxVar_cons]
  unfold pickStep
  rw [hp]

theorem pickMaxVar_eq_none_iff (ps : List ColumnProfile) :
    pickMaxVar ps = none ↔ ∀ p ∈ ps, p.variance = none := by
  induction ps with
  | nil => simp [pickMaxVar]
  | cons p rest ih =>
    cases hp : p.variance with
    | none =>
      rw [pickMaxVar_cons_none p rest hp]
      simp only [List.mem_cons]
      constructor
      · intro h q hq
        rcases hq with rfl | hq
        · exact hp
        · exact ih.mp h q hq
      · intro h
        exact ih.mpr (fun q hq => h q (Or.inr hq))
    | some v =>
      rw [pickMaxVar_cons_some p rest v hp]
      have hne : (match pickMaxVar rest with
          | some (q, w) => if v < w then some (q, w) else some (p, v)
          | none => some (p, v)) ≠ none := by
        cases hr : pickMaxVar rest with
        | none => simp
        | some qw =>
          obtain ⟨q, w⟩ := qw
          by_cases hvw : v < w <;> simp [hvw]
      constructor
      · intro h
        exact absurd h hne
      · intro h
        have := h p (List.mem_cons_self _ _)
        rw [hp] at this
        cases this

theorem pickMaxVar_sound (ps : List ColumnProfile) (p : ColumnProfile) (v : ℚ)
    (h : pickMaxVar ps = some (p, v)) : p ∈ ps ∧ p.variance = some v := by
  induction ps generalizing p v with
  | nil => cases h
  | cons a rest ih =>
    cases ha : a.variance with
    | none =>
      rw [pickMaxVar_cons_none a rest ha] at h
      obtain ⟨hm, hv⟩ := ih p v h
      exact ⟨List.mem_cons_of_mem _ hm, hv⟩
    | some va =>
      rw [pickMaxVar_cons_some a rest va ha] at h
      cases hr : pickMaxVar rest with
      | none =>
        rw [hr] at h
        simp only [Option.some.injEq, Prod.mk.injEq] at h
        obtain ⟨rfl, rfl⟩ := h
        exact ⟨List.mem_cons_self _ _, ha⟩
      | some qw =>
        obtain ⟨q, w⟩ := qw
        rw [hr] at h
        by_cases hvw : va < w
        · simp only [hvw, if_true, Option.some.injEq, Prod.mk.injEq] at h
          obtain ⟨rfl, rfl⟩ := h
          obtain ⟨hm, hv⟩ := ih _ _ hr
          exact ⟨List.mem_cons_of_mem _ hm, hv⟩
        · simp only [hvw, if_false, Option.some.injEq, Prod.mk.injEq] at h
          obtain ⟨rfl, rfl⟩ := h
          exact ⟨List.mem_cons_self _ _, ha⟩

theorem pickMaxVar_max (ps : List ColumnProfile) (p : ColumnProfile) (v : ℚ)
    (h : pickMaxVar ps = some (p, v)) :
    ∀ q ∈ ps, ∀ w, q.variance = some w → w ≤ v := by
  induction ps generalizing p v with
  | nil => cases h
  | cons a rest ih =>
    intro q hq w hw
    cases ha : a.variance with
    | none =>
      rw [pickMaxVar_cons_none a rest ha] at h
      rcases List.mem_cons.mp hq with rfl | hq2
      · rw [ha] at hw
        cases hw
      · exact ih p v h q hq2 w hw
    | some va =>
      rw [pickMaxVar_cons_some a rest va ha] at h
      cases hr : pickMaxVar rest with
      | none =>
        rw [hr] at h
        simp only [Option.some.injEq, Prod.mk.injEq] at h
        obtain ⟨rfl, rfl⟩ := h
        rcases List.mem_cons.mp hq with rfl | hq2
        · rw [ha] at hw
          exact le_of_eq (Option.some.inj hw).symm
        · have := (pickMaxVar_eq_none_iff rest).mp hr q hq2
          rw [this] at hw
          cases hw
      | some qw =>
        obtain ⟨b, wb⟩ := qw
        rw [hr] at h
        by_cases hvw : va < wb
        · simp only [hvw, if_true, Option.some.injEq, Prod.mk.injEq] at h
          obtain ⟨rfl, rfl⟩ := h
          rcases List.mem_cons.mp hq with rfl | hq2
          · rw [ha] at hw
            have : va = w := Option.some.inj hw
            linarith
          · exact ih _ _ hr q hq2 w hw
        · simp only [hvw, if_false, Option.some.injEq, Prod.mk.injEq] at h
          obtain ⟨rfl, rfl⟩ := h
          push_neg at hvw
          rcases List.mem_cons.mp hq with rfl | hq2
          · rw [ha] at hw
            exact le_of_eq (Option.some.inj hw).symm
          · have := ih b wb hr q hq2 w hw
            linarith

theorem pickMaxVar_first (ps : List ColumnProfile) (p : ColumnProfile) (v : ℚ)
    (h : pickMaxVar ps = some (p, v)) :
    ∃ i, ps[i]? = some p ∧
      ∀ j : ℕ, j < i → ∀ q : ColumnProfile, ps[j]? = some q →
        ∀ w : ℚ, q.variance = some w → w < v := by
  induction ps generalizing p v with
  | nil => cases h
  | cons a rest ih =>
    cases ha : a.variance with
    | none =>
      rw [pickMaxVar_cons_none a rest ha] at h
      obtain ⟨i, hi, hstrict⟩ := ih p v h
      refine ⟨i + 1, by simpa using hi, ?_⟩
      intro j hj q hq w hw
      cases j with
      | zero =>
        simp only [List.getElem?_cons_zero, Option.some.injEq] at hq
        rw [← hq, ha] at hw
        cases hw
      | succ j2 =>
        simp only [List.getElem?_cons_succ] at hq
        exact hstrict j2 (by omega) q hq w hw
    | some va =>
      rw [pickMaxVar_cons_some a rest va ha] at h
      cases hr : pickMaxVar rest with
      | none =>
        rw [hr] at h
        simp only [Option.some.injEq, Prod.mk.injEq] at h
        obtain ⟨rfl, rfl⟩ := h
        exact ⟨0, by simp, fun j hj => absurd hj (Nat.not_lt_zero j)⟩
      | some qw =>
        obtain ⟨b, wb⟩ := qw
        rw [hr] at h
        by_cases hvw : va < wb
        · simp only [hvw, if_true, Option.some.injEq, Prod.mk.injEq] at h
          obtain ⟨rfl, rfl⟩ := h
          obtain ⟨i, hi, hstrict⟩ := ih _ _ hr
          refine ⟨i + 1, by simpa using hi, ?_⟩
          intro j hj q hq w hw
          cases j with
          | zero =>
            simp only [List.getElem?_cons_zero, Option.some.injEq] at hq
            rw [← hq, ha] at hw
            have : va = w := Option.some.inj hw
            linarith
          | succ j2 =>
            simp only [List.getElem?_cons_succ] at hq
            exact hstrict j2 (by omega) q hq w hw
        · simp only [hvw, if_false, Option.some.injEq, Prod.mk.injEq] at h
          obtain ⟨rfl, rfl⟩ := h
          exact ⟨0, by simp, fun j hj => absurd hj (Nat.not_lt_zero j)⟩

theorem rule1_eq_nil (ps : List ColumnProfile) (h : pickMaxVar ps = none) :
    rule1 ps = [] := by
  unfold rule1
  rw [h]

theorem rule1_eq_pair (ps : List ColumnProfile) (p : ColumnProfile) (v : ℚ)
    (h : pickMaxVar ps = some (p, v)) :
    rule1 ps =
      [⟨InsightKind.variability, some p.name, p.variance⟩,
       ⟨InsightKind.extremum, some p.name, p.maxVal⟩] := by
  unfold rule1
  rw [h]

theorem mem_rule1_kind (ps : List ColumnProfile) (i : Insight) (h : i ∈ rule1 ps) :
    i.kind = InsightKind.variability ∨ i.kind = InsightKind.extremum := by
  cases hp : pickMaxVar ps with
  | none =>
    rw [rule1_eq_nil ps hp] at h
    cases h
  | some pv =>
    obtain ⟨p, v⟩ := pv
    rw [rule1_eq_pair ps p v hp] at h
    simp only [List.mem_cons, List.mem_singleton, List.not_mem_nil, or_false] at h
    rcases h with rfl | rfl
    · left
      rfl
    · right
      rfl

theorem mem_rule2_kind (ps : List ColumnProfile) (i : Insight) (h : i ∈ rule2 ps) :
    i.kind = InsightKind.dataQualityWarning := by
  unfold rule2 at h
  split at h
  · simp only [List.mem_singleton] at h
    subst h
    rfl
  · cases h

theorem rule2_ne_nil_iff (ps : List ColumnProfile) :
    rule2 ps ≠ [] ↔ ∃ p ∈ ps, (3 : ℚ) / 10 < p.nullRate := by
  unfold rule2
  by_cases hb : ps.any (fun p => decide ((3 : ℚ) / 10 < p.nullRate)) = true
  · rw [if_pos hb]
    constructor
    · intro _
      simpa using hb
    · intro _
      simp
  · rw [if_neg hb]
    constructor
    · intro hcon
      exact absurd rfl hcon
    · intro hex
      exact absurd (by simpa using hex) hb

theorem generate_insights_eq_cases (t : Table) (pr : TableProfile) :
    (rule1 pr.columns ++ rule2 pr.columns = [] ∧
      generate_insights t pr = [fallbackInsight]) ∨
    (rule1 pr.columns ++ rule2 pr.columns ≠ [] ∧
      generate_insights t pr = rule1 pr.columns ++ rule2 pr.columns) := by
  cases hl : rule1 pr.columns ++ rule2 pr.columns with
  | nil =>
    left
    refine ⟨rfl, ?_⟩
    unfold generate_insights
    rw [hl]
    rfl
  | cons x xs =>
    right
    refine ⟨by simp, ?_⟩
    unfold generate_insights
    rw [hl]
    rfl

/-- C10: for every DataFrame, `analyze_sheet_structure` returns (it is total —
the one division involved is the non-raising numpy division) a record whose
`rows` and `columns` fields equal the DataFrame's shape, whose `sheet_name`
field equals the `sheet_name` argument unchanged, whose `numeric_cols` and
`text_cols` counts are each at most the column count, and whose
`sample_columns` field is the first `min 5 (column count)` column names in
original order. -/
theorem analyze_sheet_structure_contract (df : Table) (s : String) :
    (analyze_sheet_structure df s).rows = df.nrows ∧
    (analyze_sheet_structure df s).columns = df.ncols ∧
    (analyze_sheet_structure df s).sheet_name = s ∧
    (analyze_sheet_structure df s).numeric_cols ≤ df.ncols ∧
    (analyze_sheet_structure df s).text_cols ≤ df.ncols ∧
    (analyze_sheet_structure df s).sample_columns = (df.cols.map Column.name).take 5 ∧
    (analyze_sheet_structure df s).sample_columns.length = min 5 df.ncols := by
  refine ⟨rfl, rfl, rfl, ?_, ?_, rfl, ?_⟩
  · exact List.length_filter_le _ _
  · exact List.length_filter_le _ _
  · show ((df.cols.map Column.name).take 5).length = min 5 df.ncols
    rw [List.length_take, List.length_map]
    rfl

/-- C1 counterexample: on the Scenario-C table (0 rows, 3 columns) the source
divides by `rows * cols = 0`; numpy then yields `NaN` (modelled `none`), so the
fill-rate is not `100` there — the claim's zero-cell clause fails on the code. -/
theorem fill_rate_zero_cells_cex :
    (analyze_sheet_structure zeroRowTable "Sheet1").null_percentage = none ∧
    main_fill_rate zeroRowTable = none ∧
    main_fill_rate zeroRowTable ≠ some 100 := by
  decide

/-- C1 amended: for every rectangular table with a nonzero cell count, the
source fill-rate equals `(non-null cells) / (rows * cols)` expressed as a
percentage and lies in `[0, 100]`; when `rows = 0` or `cols = 0` the source
yields `NaN` (modelled `none`), not `100`. -/
theorem fill_rate_src_amended (df : Table) (h : df.WF) :
    (df.cellCount = 0 → main_fill_rate df = none) ∧
    (df.cellCount ≠ 0 →
      main_fill_rate df = some ((df.totalNonNull : ℚ) / (df.cellCount : ℚ) * 100) ∧
      ∀ q : ℚ, main_fill_rate df = some q → 0 ≤ q ∧ q ≤ 100) := by
  constructor
  · intro h0
    unfold main_fill_rate npDiv
    rw [h0]
    norm_num
  · intro h0
    have hc : ((df.cellCount : ℕ) : ℚ) ≠ 0 := Nat.cast_ne_zero.mpr h0
    have hsum := totalNulls_add_totalNonNull df h
    have heq : main_fill_rate df
        = some (100 - (df.totalNulls : ℚ) / (df.cellCount : ℚ) * 100) := by
      unfold main_fill_rate npDiv
      rw [if_neg hc]
      rfl
    have hcastsum : (df.totalNulls : ℚ) + (df.totalNonNull : ℚ) = (df.cellCount : ℚ) := by
      exact_mod_cast congrArg (Nat.cast : ℕ → ℚ) hsum
    have hval : (100 : ℚ) - (df.totalNulls : ℚ) / (df.cellCount : ℚ) * 100
        = (df.totalNonNull : ℚ) / (df.cellCount : ℚ) * 100 := by
      field_simp
      linarith
    have hle : (df.totalNonNull : ℚ) ≤ (df.cellCount : ℚ) := by
      have hn : df.totalNonNull ≤ df.cellCount := by omega
      exact_mod_cast hn
    refine ⟨by rw [heq, hval], ?_⟩
    intro q hq
    rw [heq, hval] at hq
    have hq2 : q = (df.totalNonNull : ℚ) / (df.cellCount : ℚ) * 100 :=
      (Option.some.inj hq).symm
    subst hq2
    have hpos : (0 : ℚ) < (df.cellCount : ℚ) := by
      exact_mod_cast Nat.pos_of_ne_zero h0
    constructor
    · have h1 : 0 ≤ (df.totalNonNull : ℚ) / (df.cellCount : ℚ) :=
        div_nonneg (by positivity) (le_of_lt hpos)
      linarith
    · have hd1 : (df.totalNonNull : ℚ) / (df.cellCount : ℚ) ≤ 1 :=
        (div_le_one hpos).mpr hle
      linarith

/-- C1 amended witness: the Scenario-A table is rectangular, has 6 cells, all
non-null, and the source fill-rate evaluates to exactly `100`. -/
theorem fill_rate_src_amended_witness :
    sampleTable.WF ∧ main_fill_rate sampleTable = some 100 := by
  have hwf : sampleTable.WF := by decide
  refine ⟨hwf, ?_⟩
  have h := ((fill_rate_src_amended sampleTable hwf).2 (by decide)).1
  rw [h]
  have h1 : sampleTable.totalNonNull = 6 := by decide
  have h2 : sampleTable.cellCount = 6 := by decide
  rw [h1, h2]
  simp only [Option.some.injEq]
  norm_num

/-- C6 counterexample: for a 0-row table the source per-column computation of
lines 542-546 divides by `len(df) = 0`; pandas yields `NaN` (modelled `none`),
not the `0` the claim requires. -/
theorem missing_pct_zero_rows_cex :
    missing_pct zeroRowTable ⟨"A", Dtype.other, []⟩ = none ∧
    missing_pct zeroRowTable ⟨"A", Dtype.other, []⟩ ≠ some 0 := by
  decide

/-- C6 amended: for every column of a rectangular table with a nonzero row
count, the source per-column missing percentage equals
`(null count) / (row count)` as a percentage, the underlying null-rate lying in
`[0, 1]`; when the row count is `0` the source yields `NaN` (modelled `none`),
not `0`. -/
theorem missing_pct_src_amended (df : Table) (c : Column) (hc : c ∈ df.cols)
    (h : df.WF) :
    (df.nrows = 0 → missing_pct df c = none) ∧
    (df.nrows ≠ 0 →
      missing_pct df c = some ((c.nullCount : ℚ) / (df.nrows : ℚ) * 100) ∧
      0 ≤ (c.nullCount : ℚ) / (df.nrows : ℚ) ∧
      (c.nullCount : ℚ) / (df.nrows : ℚ) ≤ 1) := by
  constructor
  · intro h0
    unfold missing_pct npDiv
    rw [h0]
    norm_num
  · intro h0
    have hrat : ((df.nrows : ℕ) : ℚ) ≠ 0 := Nat.cast_ne_zero.mpr h0
    have heq : missing_pct df c = some ((c.nullCount : ℚ) / (df.nrows : ℚ) * 100) := by
      unfold missing_pct npDiv
      rw [if_neg hrat]
      rfl
    have hcount : c.nullCount ≤ df.nrows := by
      have h1 : c.nullCount ≤ c.cells.length := List.countP_le_length _
      rw [h c hc] at h1
      exact h1
    have hpos : (0 : ℚ) < (df.nrows : ℚ) := by
      exact_mod_cast Nat.pos_of_ne_zero h0
    refine ⟨heq, div_nonneg (by positivity) (le_of_lt hpos), ?_⟩
    rw [div_le_one hpos]
    exact_mod_cast hcount

/-- C6 amended witness: column `A` of the Scenario-A table has no nulls and 3
rows, and the source missing percentage evaluates to `0`. -/
theorem missing_pct_src_amended_witness :
    missing_pct sampleTable colA = some 0 := by
  have h :=
    ((missing_pct_src_amended sampleTable colA (by decide) (by decide)).2 (by decide)).1
  rw [h]
  have h1 : colA.nullCount = 0 := by decide
  have h2 : sampleTable.nrows = 3 := rfl
  rw [h1, h2]
  simp only [Option.some.injEq]
  norm_num

/-- C2: for every table and profile, `generate_insights` returns a non-empty
sequence; it is exactly the single `no-data-fallback` insight precisely when
rules 1-2 produced nothing, and otherwise at least one rule-1 or rule-2 insight
(`variability`, `extremum` or `data-quality-warning`) is present. -/
theorem generate_insights_nonempty (t : Table) (pr : TableProfile) :
    generate_insights t pr ≠ [] ∧
    (generate_insights t pr = [fallbackInsight] ↔
      rule1 pr.columns ++ rule2 pr.columns = []) ∧
    (rule1 pr.columns ++ rule2 pr.columns ≠ [] →
      ∃ i ∈ generate_insights t pr,
        i.kind = InsightKind.variability ∨ i.kind = InsightKind.extremum ∨
          i.kind = InsightKind.dataQualityWarning) := by
  rcases generate_insights_eq_cases t pr with ⟨h0, hg⟩ | ⟨h0, hg⟩
  · exact ⟨by rw [hg]; simp, ⟨fun _ => h0, fun _ => hg⟩, fun hne => absurd h0 hne⟩
  · refine ⟨?_, ?_, ?_⟩
    · rw [hg]
      exact h0
    · constructor
      · intro hfb
        exfalso
        have hmem : fallbackInsight ∈ rule1 pr.columns ++ rule2 pr.columns := by
          rw [← hg, hfb]
          exact List.mem_singleton_self _
        rcases List.mem_append.mp hmem with hm | hm
        · rcases mem_rule1_kind _ _ hm with hk | hk <;> exact absurd hk (by decide)
        · exact absurd (mem_rule2_kind _ _ hm) (by decide)
      · intro hnil
        exact absurd hnil h0
    · intro _
      cases hl : rule1 pr.columns ++ rule2 pr.columns with
      | nil => exact absurd hl h0
      | cons x xs =>
        have hx : x ∈ rule1 pr.columns ++ rule2 pr.columns := by
          rw [hl]
          exact List.mem_cons_self _ _
        refine ⟨x, by rw [hg, hl]; exact List.mem_cons_self _ _, ?_⟩
        rcases List.mem_append.mp hx with hm | hm
        · rcases mem_rule1_kind _ _ hm with hk | hk
          · exact Or.inl hk
          · exact Or.inr (Or.inl hk)
        · exact Or.inr (Or.inr (mem_rule2_kind _ _ hm))

/-- C2 witness: on the Scenario-C table (no numeric data) rules 1-2 produce
nothing and the generator returns exactly the single fallback insight. -/
theorem generate_insights_nonempty_witness :
    generate_insights zeroRowTable (profile zeroRowTable) = [fallbackInsight] ∧
    generate_insights zeroRowTable (profile zeroRowTable) ≠ [] := by
  have h12 : rule1 (profile zeroRowTable).columns ++
      rule2 (profile zeroRowTable).columns = [] := by
    norm_num [rule1, rule2, pickMaxVar, pickStep, profile, profileColumn,
      zeroRowTable, classify, Column.numVals, sampleVariance]
  exact ⟨((generate_insights_nonempty zeroRowTable (profile zeroRowTable)).2.1).mpr h12,
    (generate_insights_nonempty zeroRowTable (profile zeroRowTable)).1⟩

/-- C3: whenever rule 1 fires, the first two insights of the generated sequence
are the `variability` and the `extremum` insight in that order, and every
`data-quality-warning` insight occurs at position 2 or later — so variability
precedes extremum, which precedes any warning. -/
theorem insight_order (t : Table) (pr : TableProfile)
    (h : pickMaxVar pr.columns ≠ none) :
    ((generate_insights t pr).map Insight.kind).take 2
      = [InsightKind.variability, InsightKind.extremum] ∧
    ∀ k : ℕ, ∀ ins : Insight, (generate_insights t pr)[k]? = some ins →
      ins.kind = InsightKind.dataQualityWarning → 2 ≤ k := by
  cases hp : pickMaxVar pr.columns with
  | none => exact absurd hp h
  | some pv =>
    obtain ⟨p, v⟩ := pv
    have hr1 := rule1_eq_pair pr.columns p v hp
    have hgen : generate_insights t pr = rule1 pr.columns ++ rule2 pr.columns := by
      rcases generate_insights_eq_cases t pr with ⟨h0, _⟩ | ⟨_, hg⟩
      · rw [hr1] at h0
        cases h0
      · exact hg
    rw [hgen, hr1]
    unfold rule2
    split
    · refine ⟨rfl, ?_⟩
      intro k ins hk hkind
      cases k with
      | zero =>
        simp only [List.cons_append, List.getElem?_cons_zero, Option.some.injEq] at hk
        rw [← hk] at hkind
        simp at hkind
      | succ k1 =>
        cases k1 with
        | zero =>
          simp only [List.cons_append, List.getElem?_cons_succ,
            List.getElem?_cons_zero, Option.some.injEq] at hk
          rw [← hk] at hkind
          simp at hkind
        | succ k2 => omega
    · refine ⟨rfl, ?_⟩
      intro k ins hk hkind
      cases k with
      | zero =>
        simp only [List.cons_append, List.getElem?_cons_zero, Option.some.injEq] at hk
        rw [← hk] at hkind
        simp at hkind
      | succ k1 =>
        cases k1 with
        | zero =>
          simp only [List.cons_append, List.getElem?_cons_succ,
            List.getElem?_cons_zero, Option.some.injEq] at hk
          rw [← hk] at hkind
          simp at hkind
        | succ k2 => omega

/-- C3 witness: on the mixed table (a high-variance numeric column plus a
60%-null column) rule 1 fires and the generated sequence starts with
`variability` then `extremum`. -/
theorem insight_order_witness :
    ((generate_insights mixedTable (profile mixedTable)).map Insight.kind).take 2
      = [InsightKind.variability, InsightKind.extremum] := by
  have hp : pickMaxVar (profile mixedTable).columns ≠ none := by
    have hv : pickMaxVar (profile mixedTable).columns
        = some (profileColumn 10 colV, 165 / 18) := by
      norm_num [pickMaxVar, pickStep, profile, mixedTable, profileColumn, colV,
        colX, classify, Column.numVals, sampleVariance, List.filterMap_cons,
        List.sum_cons, List.map_cons]
    rw [hv]
    simp
  exact (insight_order mixedTable (profile mixedTable) hp).1

/-- C4: the generated sequence contains a `data-quality-warning` insight iff
some column's null-rate over the whole table strictly exceeds the 30% threshold
(strictly greater than, not greater-or-equal). -/
theorem warning_iff_nullrate (t : Table) :
    (∃ i ∈ generate_insights t (profile t),
        i.kind = InsightKind.dataQualityWarning)
      ↔ ∃ c ∈ t.cols, (3 : ℚ) / 10 < (profileColumn t.nrows c).nullRate := by
  have hcols : (profile t).columns = t.cols.map (profileColumn t.nrows) := rfl
  constructor
  · rintro ⟨i, hi, hk⟩
    rcases generate_insights_eq_cases t (profile t) with ⟨h0, hg⟩ | ⟨h0, hg⟩
    · rw [hg] at hi
      simp only [List.mem_singleton] at hi
      rw [hi] at hk
      exact absurd hk (by decide)
    · rw [hg] at hi
      rcases List.mem_append.mp hi with hm | hm
      · rcases mem_rule1_kind _ _ hm with hk2 | hk2 <;>
          (rw [hk] at hk2; exact absurd hk2 (by decide))
      · have hne : rule2 (profile t).columns ≠ [] := by
          intro hnil
          rw [hnil] at hm
          cases hm
        obtain ⟨p, hp, hrate⟩ := (rule2_ne_nil_iff _).mp hne
        rw [hcols] at hp
        obtain ⟨c, hc, rfl⟩ := List.mem_map.mp hp
        exact ⟨c, hc, hrate⟩
  · rintro ⟨c, hc, hrate⟩
    have hne : rule2 (profile t).columns ≠ [] := by
      rw [rule2_ne_nil_iff]
      refine ⟨profileColumn t.nrows c, ?_, hrate⟩
      rw [hcols]
      exact List.mem_map_of_mem _ hc
    have hr12 : rule1 (profile t).columns ++ rule2 (profile t).columns ≠ [] := by
      simp only [ne_eq, List.append_eq_nil]
      rintro ⟨_, h2⟩
      exact hne h2
    rcases generate_insights_eq_cases t (profile t) with ⟨h0, _⟩ | ⟨_, hg⟩
    · exact absurd h0 hr12
    · cases hl : rule2 (profile t).columns with
      | nil => exact absurd hl hne
      | cons w ws =>
        have hwmem : w ∈ rule2 (profile t).columns := by
          rw [hl]
          exact List.mem_cons_self _ _
        refine ⟨w, ?_, mem_rule2_kind _ w hwmem⟩
        rw [hg]
        exact List.mem_append_right _ hwmem

/-- C4 witness: the Scenario-B column `X` (10 rows, 6 null, null-rate 0.6)
makes the warning appear, and on the all-non-null Scenario-A table no warning
appears. -/
theorem warning_iff_nullrate_witness :
    (∃ i ∈ generate_insights mixedTable (profile mixedTable),
        i.kind = InsightKind.dataQualityWarning) ∧
    ¬ (∃ i ∈ generate_insights sampleTable (profile sampleTable),
        i.kind = InsightKind.dataQualityWarning) := by
  constructor
  · refine (warning_iff_nullrate mixedTable).mpr ⟨colX, by decide, ?_⟩
    have h6 : colX.nullCount = 6 := by decide
    norm_num [profileColumn, h6, mixedTable]
  · intro hw
    obtain ⟨c, hc, hrate⟩ := (warning_iff_nullrate sampleTable).mp hw
    have h0 : c.nullCount = 0 := by
      have hca : c = colA ∨ c = colB := by
        simpa [sampleTable, List.mem_cons] using hc
      rcases hca with rfl | rfl <;> decide
    rw [show (profileColumn sampleTable.nrows c).nullRate
        = (c.nullCount : ℚ) / (sampleTable.nrows : ℚ) from rfl] at hrate
    rw [h0] at hrate
    norm_num at hrate

/-- C5: rule 1 emits nothing exactly when no profiled column has a defined
variance; when the selection succeeds it emits the variability/extremum pair
naming the selected column, whose variance is defined, maximal among all
defined variances, and strictly above every earlier column's defined variance
(ties broken by original position, first occurrence winning); and a defined
variance only ever arises for a numeric-classified column, so the selection
ranges over the numeric columns. -/
theorem rule1_selection (ps : List ColumnProfile) :
    (rule1 ps = [] ↔ ∀ p ∈ ps, p.variance = none) ∧
    (∀ p : ColumnProfile, ∀ v : ℚ, pickMaxVar ps = some (p, v) →
      rule1 ps =
        [⟨InsightKind.variability, some p.name, p.variance⟩,
         ⟨InsightKind.extremum, some p.name, p.maxVal⟩] ∧
      p.variance = some v ∧
      (∀ q ∈ ps, ∀ w : ℚ, q.variance = some w → w ≤ v) ∧
      ∃ i : ℕ, ps[i]? = some p ∧
        ∀ j : ℕ, j < i → ∀ q : ColumnProfile, ps[j]? = some q →
          ∀ w : ℚ, q.variance = some w → w < v) ∧
    (∀ rows : ℕ, ∀ c : Column, (profileColumn rows c).variance ≠ none →
      (profileColumn rows c).kind = ColKind.numeric) := by
  refine ⟨⟨?_, ?_⟩, ?_, ?_⟩
  · intro h
    cases hp : pickMaxVar ps with
    | none => exact (pickMaxVar_eq_none_iff ps).mp hp
    | some pv =>
      obtain ⟨p, v⟩ := pv
      rw [rule1_eq_pair ps p v hp] at h
      cases h
  · intro h
    exact rule1_eq_nil ps ((pickMaxVar_eq_none_iff ps).mpr h)
  · intro p v hp
    exact ⟨rule1_eq_pair ps p v hp, (pickMaxVar_sound ps p v hp).2,
      pickMaxVar_max ps p v hp, pickMaxVar_first ps p v hp⟩
  · intro rows c h
    by_cases hc : classify c.dtype = ColKind.numeric
    · exact hc
    · exact absurd (if_neg hc) h

/-- C5 witness: on the Scenario-A table the selection picks column `B`
(sample variance 100, beating 1 for `A`) and rule 1 emits the
variability/extremum pair naming `B` with maximum value 30. -/
theorem rule1_selection_witness :
    rule1 (profile sampleTable).columns =
      [⟨InsightKind.variability, some "B", some 100⟩,
       ⟨InsightKind.extremum, some "B", some 30⟩] := by
  have hp : pickMaxVar (profile sampleTable).columns
      = some (profileColumn 3 colB, 100) := by
    norm_num [pickMaxVar, pickStep, profile, sampleTable, profileColumn, colA,
      colB, classify, Column.numVals, sampleVariance, List.filterMap_cons,
      List.sum_cons, List.map_cons]
  have h := ((rule1_selection (profile sampleTable).columns).2.1 _ _ hp).1
  rw [h]
  norm_num [profileColumn, colB, classify, Column.numVals, sampleVariance,
    List.filterMap_cons, List.sum_cons, List.map_cons, List.max?]

/-- C7: the modelled checked core raises only `InvalidInputError`, exactly on a
non-Table argument; on every Table, however malformed, both entry points return
`ok` (the embedding of each operation is total — numpy division never raises —
and an `object`-dtype column, numeric-looking text included, is classified
categorical and excluded from the numeric-only computations instead of
raising). -/
theorem core_error_taxonomy :
    (∀ t : Table, runProfile (CoreInput.table t) = Except.ok (profile t) ∧
      runInsights (CoreInput.table t)
        = Except.ok (generate_insights t (profile t))) ∧
    (∀ x : CoreInput,
      (∃ e : CoreError, runProfile x = Except.error e) ↔ x = CoreInput.nonTable) ∧
    (∀ x : CoreInput, ∀ e : CoreError, runProfile x = Except.error e →
      e = CoreError.invalidInputError) ∧
    (∀ rows : ℕ, ∀ nm : String, ∀ cells : List Cell,
      (profileColumn rows ⟨nm, Dtype.object, cells⟩).kind = ColKind.categorical ∧
      (profileColumn rows ⟨nm, Dtype.object, cells⟩).variance = none ∧
      (profileColumn rows ⟨nm, Dtype.object, cells⟩).maxVal = none) := by
  refine ⟨fun t => ⟨rfl, rfl⟩, ?_, ?_, ?_⟩
  · intro x
    cases x with
    | table t =>
      constructor
      · rintro ⟨e, he⟩
        cases he
      · intro hx
        cases hx
    | nonTable =>
      exact ⟨fun _ => rfl, fun _ => ⟨CoreError.invalidInputError, rfl⟩⟩
  · intro x e he
    cases x with
    | table t => cases he
    | nonTable =>
      cases e
      rfl
  · intro rows nm cells
    exact ⟨rfl, rfl, rfl⟩

/-- C7 witness: a non-Table argument yields exactly `InvalidInputError`, and
the (malformed-looking, all-text) table is profiled without error. -/
theorem core_error_taxonomy_witness :
    runProfile CoreInput.nonTable = Except.error CoreError.invalidInputError ∧
    runProfile (CoreInput.table textOnlyTable)
      = Except.ok (profile textOnlyTable) := by
  refine ⟨?_, (core_error_taxonomy.1 textOnlyTable).1⟩
  obtain ⟨e, he⟩ := (core_error_taxonomy.2.1 CoreInput.nonTable).mpr rfl
  rw [core_error_taxonomy.2.2.1 CoreInput.nonTable e he] at he
  exact he

/-- C8: `profile` and `generate_insights` are deterministic and idempotent —
a second call on the (unchanged) table left behind by a first call returns the
same result, and the result depends on the table alone: equal tables give equal
results.  Purity holds by construction of the embedding, which mirrors that the
source reads nothing but its arguments and touches no module-level state. -/
theorem profile_deterministic_idempotent (t : Table) :
    (profile_call ((profile_call t).2)).1 = (profile_call t).1 ∧
    (generate_insights_call ((generate_insights_call t (profile t)).2)
        (profile ((generate_insights_call t (profile t)).2))).1
      = (generate_insights_call t (profile t)).1 ∧
    (∀ s : Table, s = t →
      profile s = profile t ∧
      ∀ pr : TableProfile, generate_insights s pr = generate_insights t pr) := by
  refine ⟨rfl, rfl, ?_⟩
  intro s hs
  rw [hs]
  exact ⟨rfl, fun _ => rfl⟩

/-- C8 witness: recomputing the profile of the Scenario-A table gives the same
profile. -/
theorem profile_deterministic_idempotent_witness :
    profile sampleTable = profile sampleTable :=
  ((profile_deterministic_idempotent sampleTable).2.2 sampleTable rfl).1

/-- C9: neither `profile`, `generate_insights` nor `analyze_sheet_structure`
mutates its input — the table coming out of each threaded call is the table
that went in, columns and cell values included.  The embedding threads the
frame through each call, mirroring that every frame operation the source
performs is a read returning a fresh object, and that no module-level state
exists for the core to mutate. -/
theorem no_mutation (t : Table) (pr : TableProfile) (s : String) :
    (profile_call t).2 = t ∧
    (generate_insights_call t pr).2 = t ∧
    (analyze_sheet_structure_call t s).2 = t ∧
    (profile_call t).2.cols = t.cols ∧
    (generate_insights_call t pr).2.cols.map Column.cells
      = t.cols.map Column.cells :=
  ⟨rfl, rfl, rfl, rfl, rfl⟩
